import Mathlib

/-!
Verification of `src/assign_gvi_to_points.py`.

The script computes a Green View Index (GVI) per image (`get_gvi_score`):
it decodes the image, normalizes the three color channels to `[0, 1]`,
computes the Excess Green index `exg = 2*g - r - b` per pixel, takes the
Otsu threshold of the `exg` distribution (skimage `threshold_otsu`), and
returns `100 * count(exg > threshold) / total_pixels`.  The `main` command
checks the image directory, computes one score per directory entry, derives
a join key by dropping the last five characters of each filename
(`df["filename"].str[:-5]`), and left-merges the scores onto the point
dataset on that key.

Machine reals are modelled by `ℚ`; the image is the flattened list of its
pixels (the grids produced by the decoder are rectangular, so the pixel
count `shape[0] * shape[1]` is the length of that list).  Fallible steps
(`cv2.imread` returning `None` and the subsequent crash in `cv2.cvtColor`)
are modelled with `Option`/`Except`.
-/

namespace StreetGreen

/-- An RGB pixel after the source's normalization `astype(np.float32) / 255`:
three channel values in `[0, 1]`. -/
structure Pixel where
  r : ℚ
  g : ℚ
  b : ℚ
deriving DecidableEq, Repr

/-- Excess Green index of one pixel: `exg = 2 * g - r - b`
(line `exg = 2 * g - r - b` of the source). -/
def exg (p : Pixel) : ℚ := 2 * p.g - p.r - p.b

/-- The per-pixel `exg` map of an image (flattened). -/
def exgMap (im : List Pixel) : List ℚ := im.map exg

/-- First index of the maximum of a list, scanning left to right with a
strict improvement test, so the first occurrence of the maximum wins —
the semantics of `np.argmax`.  `cur` is the best value so far, `best` its
index, `i` the index of the head of the remaining list. -/
def argmaxAux : List ℚ → ℚ → ℕ → ℕ → ℕ
  | [], _, best, _ => best
  | x :: xs, cur, best, i =>
    if cur < x then argmaxAux xs x i (i + 1) else argmaxAux xs cur best (i + 1)

/-- Index of the first maximum of a list (`np.argmax`); `0` on `[]`. -/
def argmaxIdx : List ℚ → ℕ
  | [] => 0
  | x :: xs => argmaxAux xs x 0 1

/-- Histogram branch of skimage `threshold_otsu` with the default 256 bins,
on the nonconstant value list `v :: rest`:
`np.histogram` counts over 256 equal bins spanning `[min, max]` (last bin
closed), `bin_centers` are the bin midpoints, and for every split index
`i` the inter-class variance
`weight1[i] * weight2[i+1] * (mean1[i] - mean2[i+1])^2` is formed from the
cumulative counts and cumulative count-weighted centers; the threshold is
the bin center at the first argmax of those 255 variances. -/
def otsuHistogram (v : ℚ) (rest : List ℚ) : ℚ :=
  let vals := v :: rest
  let lo := rest.foldl min v
  let hi := rest.foldl max v
  let w := (hi - lo) / 256
  let bin : ℚ → ℕ := fun x => min 255 (⌊(x - lo) / w⌋).toNat
  let counts : List ℚ := (List.range 256).map
    (fun i => ((vals.countP (fun x => bin x == i) : ℕ) : ℚ))
  let center : ℕ → ℚ := fun i => lo + ((i : ℚ) + 1 / 2) * w
  let cw : List ℚ := (List.range 256).map
    (fun i => ((vals.countP (fun x => bin x == i) : ℕ) : ℚ) * center i)
  let var12 : ℕ → ℚ := fun i =>
    ((counts.take (i + 1)).sum) * ((counts.drop (i + 1)).sum) *
      (((cw.take (i + 1)).sum) / ((counts.take (i + 1)).sum)
        - ((cw.drop (i + 1)).sum) / ((counts.drop (i + 1)).sum)) ^ 2
  center (argmaxIdx ((List.range 255).map var12))

/-- skimage `threshold_otsu`: if every value equals the first one the
function short-circuits and returns that value; otherwise it runs the
256-bin histogram computation.  (`threshold_otsu` is never called on an
empty list by the source; `0` is a junk value for that case.) -/
def threshold_otsu (vals : List ℚ) : ℚ :=
  match vals with
  | [] => 0
  | v :: rest =>
    if rest.all (fun x => decide (x = v)) then v else otsuHistogram v rest

/-- `green_pixels = (exg > threshold).sum()`: the number of pixels whose
`exg` value strictly exceeds the Otsu threshold of the `exg` map. -/
def greenPixels (im : List Pixel) : ℕ :=
  (exgMap im).countP (fun x => decide (threshold_otsu (exgMap im) < x))

/-- `gvi_score = (green_pixels / total_pixels) * 100` on a decoded image. -/
def gviScore (im : List Pixel) : ℚ :=
  (((greenPixels im : ℕ) : ℚ) / ((im.length : ℕ) : ℚ)) * 100

/-- Failure of `get_gvi_score`.  `decodeError` models the crash after
`cv2.imread` returns `None` for an unreadable input (missing file, corrupt
data, zero-dimension image): `cv2.cvtColor` raises instead of any score
being returned; the spec's taxonomy calls this failure `DecodeError`. -/
inductive GviError where
  | decodeError
deriving DecidableEq, Repr

/-- `get_gvi_score`, taking the decoder's result: `none` is `cv2.imread`
failing, in which case the call fails; otherwise the GVI score of the
decoded pixels is returned. -/
def get_gvi_score (decoded : Option (List Pixel)) : Except GviError ℚ :=
  match decoded with
  | none => Except.error GviError.decodeError
  | some im => Except.ok (gviScore im)

/-- `get_gvi_score` as called on a path: the ambient decoder `fs` maps a
path to the decoded pixels (or `none`), and the score is computed from
that decode result alone. -/
def get_gvi_score_at (fs : List Char → Option (List Pixel)) (path : List Char) :
    Except GviError ℚ :=
  get_gvi_score (fs path)

/-- Join key derivation `df["filename"].str[:-5]`: drop the last five
characters of the filename (all of it, if it is shorter than five). -/
def imageId (s : List Char) : List Char := s.take (s.length - 5)

/-- Modelled from the spec: the identifier "derived from an image filename
(by stripping the file extension)" — everything before the last dot, the
whole name when it has no dot.  This is the spec-side definition compared
against the source's `imageId`. -/
def stripExtension (s : List Char) : List Char :=
  if '.' ∈ s then ((s.reverse.dropWhile (fun c => decide (c ≠ '.'))).drop 1).reverse
  else s

/-- The five characters of the `".jpeg"` literal of the source. -/
def jpeg : List Char := ['.', 'j', 'p', 'e', 'g']

/-- `"\t".join(listing)`: the directory entries joined by a tab. -/
def tabJoin : List (List Char) → List Char
  | [] => []
  | [f] => f
  | f :: g :: rest => f ++ '\t' :: tabJoin (g :: rest)

/-- Geometry type of one feature of the interim dataset
(`gpd.read_file(interim_data).geometry.type`). -/
inductive GeomType where
  | point
  | lineString
  | polygon
deriving DecidableEq, Repr

/-- One row of the score table built in the loop: the directory entry and
its `gvi_score`. -/
structure ScoreRow where
  filename : List Char
  gvi_score : ℚ
deriving DecidableEq, Repr

/-- The `image_id` column added to the score table: `imageId` of the
filename. -/
def scoreImageId (s : ScoreRow) : List Char := imageId s.filename

/-- One row of the interim point dataset: its `image_id` attribute and an
opaque stand-in for the point geometry. -/
structure PointRow where
  image_id : List Char
  geometry : ℤ
deriving DecidableEq, Repr

/-- `gdf.merge(df, how="left", on="image_id")`: every point row is kept;
it is paired with each score row having the same `image_id`, or with
`none` when no score row matches. -/
def leftMerge (points : List PointRow) (scores : List ScoreRow) :
    List (PointRow × Option ScoreRow) :=
  points.flatMap (fun p =>
    if (scores.filter (fun s => decide (scoreImageId s = p.image_id))).isEmpty
    then [(p, none)]
    else (scores.filter (fun s => decide (scoreImageId s = p.image_id))).map
      (fun s => (p, some s)))

/-- Failures of `main`, in the source's order: the `ValueError` for a
missing image directory, the `Exception` for a listing with no `".jpeg"`,
the `Exception` for interim data without point geometry, and an unhandled
per-image `get_gvi_score` failure (which aborts the whole loop). -/
inductive MainError where
  | imageDirectoryNotFound
  | missingJpegContents
  | noPointData
  | gviFailure (f : List Char) (e : GviError)
deriving DecidableEq, Repr

/-- The environment `main` runs against: whether the image directory
exists, its listing (`os.listdir`), the distinct geometry types of the
interim data, the interim point rows, and the decoder result per
directory entry. -/
structure Env where
  imageDirectoryExists : Bool
  listing : List (List Char)
  interimGeomTypes : List GeomType
  points : List PointRow
  fs : List Char → Option (List Pixel)

/-- The score-computing loop of `main`: one `get_gvi_score` call per
directory entry, in listing order; the first failure propagates and aborts
the run (the source has no per-image error handling). -/
def computeScores (fs : List Char → Option (List Pixel)) :
    List (List Char) → Except MainError (List ScoreRow)
  | [] => Except.ok []
  | f :: rest =>
    match get_gvi_score (fs f) with
    | Except.error e => Except.error (MainError.gviFailure f e)
    | Except.ok s =>
      match computeScores fs rest with
      | Except.error e => Except.error e
      | Except.ok rows => Except.ok ({ filename := f, gvi_score := s } :: rows)

/-- The `main` command: check the directory exists, check the joined
listing contains `".jpeg"`, check the interim data has point geometry,
score every directory entry, then left-merge the scores onto the points. -/
def main (env : Env) : Except MainError (List (PointRow × Option ScoreRow)) :=
  if env.imageDirectoryExists then
    if jpeg <:+: tabJoin env.listing then
      if GeomType.point ∈ env.interimGeomTypes then
        match computeScores env.fs env.listing with
        | Except.error e => Except.error e
        | Except.ok rows => Except.ok (leftMerge env.points rows)
      else Except.error MainError.noPointData
    else Except.error MainError.missingJpegContents
  else Except.error MainError.imageDirectoryNotFound

/-- All-black pixel (every channel `0`). -/
def pixelBlack : Pixel := ⟨0, 0, 0⟩

/-- Pure-green pixel (`r = 0`, `g = 1`, `b = 0`). -/
def pixelGreen : Pixel := ⟨0, 1, 0⟩

/-- Mid-gray pixel, a uniform-image test color. -/
def pixelGray : Pixel := ⟨1 / 2, 1 / 2, 1 / 2⟩

/-- A concrete filename `a.jpeg` for witnesses. -/
def fnameA : List Char := ['a', '.', 'j', 'p', 'e', 'g']

/-- A concrete point row with identifier `a`. -/
def pointA : PointRow := ⟨['a'], 0⟩

/-- A concrete score row for the file `b.jpeg` (identifier `b`). -/
def scoreB : ScoreRow := ⟨['b', '.', 'j', 'p', 'e', 'g'], 0⟩

/-- A concrete healthy environment for witnesses: the directory exists,
holds `a.jpeg`, the interim data has point geometry, and every path decodes
to a one-pixel black image. -/
def envW : Env where
  imageDirectoryExists := true
  listing := [fnameA]
  interimGeomTypes := [GeomType.point]
  points := [pointA]
  fs := fun _ => some [pixelBlack]

/-- `envW` with the image directory missing. -/
def envNoDir : Env := { envW with imageDirectoryExists := false }

end StreetGreen

namespace StreetGreen

/-- Helper: skimage `threshold_otsu` on a nonempty constant list
short-circuits and returns the constant. -/
theorem threshold_otsu_const (c : ℚ) (l : List ℚ) (hne : l ≠ [])
    (h : ∀ x ∈ l, x = c) : threshold_otsu l = c := by
  cases l with
  | nil => exact absurd rfl hne
  | cons v rest =>
    have hv : v = c := h v (List.mem_cons_self v rest)
    have hall : rest.all (fun x => decide (x = v)) = true := by
      rw [List.all_eq_true]
      intro x hx
      have := h x (List.mem_cons_of_mem v hx)
      simp [this, hv]
    have hstep : threshold_otsu (v :: rest) =
        if rest.all (fun x => decide (x = v)) then v else otsuHistogram v rest := rfl
    rw [hstep, if_pos hall, hv]

/-- Helper: a nonempty image all of whose pixels are one fixed color scores
`0`: its `exg` map is constant, the Otsu threshold equals that constant,
and no pixel strictly exceeds it. -/
theorem gviScore_const (p : Pixel) (im : List Pixel) (hne : im ≠ [])
    (h : ∀ q ∈ im, q = p) : gviScore im = 0 := by
  have hconst : ∀ x ∈ exgMap im, x = exg p := by
    intro x hx
    obtain ⟨q, hq, rfl⟩ := List.mem_map.mp hx
    rw [h q hq]
  have hmapne : exgMap im ≠ [] := by
    cases im with
    | nil => exact absurd rfl hne
    | cons a l => simp [exgMap]
  have hthr : threshold_otsu (exgMap im) = exg p :=
    threshold_otsu_const (exg p) (exgMap im) hmapne hconst
  have hcount : greenPixels im = 0 := by
    rw [greenPixels, List.countP_eq_zero]
    intro x hx
    rw [hconst x hx, hthr]
    simp
  rw [gviScore, hcount]
  simp

/-- C1: for every decodable (nonempty) image, the returned GVI score is
`100` times the number of pixels whose `exg` value strictly exceeds the
Otsu threshold of the `exg` distribution, divided by the pixel count, and
that score lies in `[0, 100]`. -/
theorem gvi_score_formula_and_bounds (im : List Pixel) (hne : im ≠ []) :
    get_gvi_score (some im) =
      Except.ok (100 * (((exgMap im).countP
        (fun x => decide (threshold_otsu (exgMap im) < x)) : ℕ) : ℚ)
        / ((im.length : ℕ) : ℚ)) ∧
    0 ≤ gviScore im ∧ gviScore im ≤ 100 := by
  refine ⟨?_, ?_, ?_⟩
  · show Except.ok (gviScore im) = _
    rw [gviScore, greenPixels]
    congr 1
    ring
  · rw [gviScore]
    positivity
  · rw [gviScore]
    have hlen : 0 < ((im.length : ℕ) : ℚ) := by
      exact_mod_cast List.length_pos.mpr hne
    have hcount : (greenPixels im : ℚ) ≤ ((im.length : ℕ) : ℚ) := by
      have h1 : greenPixels im ≤ (exgMap im).length := by
        simp only [greenPixels]
        exact List.countP_le_length _
      have h2 : (exgMap im).length = im.length := List.length_map im exg
      exact_mod_cast h2 ▸ h1
    calc ((greenPixels im : ℕ) : ℚ) / ((im.length : ℕ) : ℚ) * 100
        ≤ 1 * 100 := by
          apply mul_le_mul_of_nonneg_right _ (by norm_num)
          rw [div_le_one hlen]
          exact hcount
      _ = 100 := one_mul 100

/-- C1 witness: the formula and bounds hold for the one-pixel black
image. -/
theorem gvi_score_formula_and_bounds_witness :
    get_gvi_score (some [pixelBlack]) =
      Except.ok (100 * (((exgMap [pixelBlack]).countP
        (fun x => decide (threshold_otsu (exgMap [pixelBlack]) < x)) : ℕ) : ℚ)
        / (((List.length [pixelBlack] : ℕ) : ℚ))) ∧
    0 ≤ gviScore [pixelBlack] ∧ gviScore [pixelBlack] ≤ 100 :=
  gvi_score_formula_and_bounds [pixelBlack] (by simp)

/-- C2 counterexample: the one-pixel pure-green image does not score
`100`: the constant `exg` distribution makes `threshold_otsu` return `2`
(skimage's short-circuit for a constant input), and `exg > 2` holds for no
pixel, so the score is `0`. -/
theorem all_green_scores_100_cex :
    get_gvi_score (some [pixelGreen]) ≠ Except.ok 100 := by
  simp only [get_gvi_score]
  intro h
  have h100 := Except.ok.inj h
  have h0 : gviScore [pixelGreen] = 0 :=
    gviScore_const pixelGreen [pixelGreen] (by simp)
      (fun q hq => by rwa [List.mem_singleton] at hq)
  rw [h0] at h100
  exact absurd h100 (by norm_num)

/-- C2 amended: every nonempty all-pure-green image scores `0`, not `100`:
its `exg` map is the constant `2`, the Otsu threshold short-circuits to
`2`, and no pixel strictly exceeds it. -/
theorem all_green_scores_zero (im : List Pixel) (hne : im ≠ [])
    (hg : ∀ p ∈ im, p = pixelGreen) :
    get_gvi_score (some im) = Except.ok 0 := by
  simp only [get_gvi_score]
  rw [gviScore_const pixelGreen im hne hg]

/-- C2 witness: the amended claim at the one-pixel pure-green image. -/
theorem all_green_scores_zero_witness :
    get_gvi_score (some [pixelGreen]) = Except.ok 0 :=
  all_green_scores_zero [pixelGreen] (by simp)
    (fun q hq => by rwa [List.mem_singleton] at hq)

/-- C4: a nonempty uniform-color image does not crash the calculator: it
deterministically returns the score `0` (the constant `exg` distribution
hits skimage `threshold_otsu`'s short-circuit, which returns the constant,
and no pixel strictly exceeds it). -/
theorem uniform_image_scores_zero (p : Pixel) (im : List Pixel)
    (hne : im ≠ []) (h : ∀ q ∈ im, q = p) :
    get_gvi_score (some im) = Except.ok 0 := by
  simp only [get_gvi_score]
  rw [gviScore_const p im hne h]

/-- C4 witness: the uniform mid-gray one-pixel image scores `0`. -/
theorem uniform_image_scores_zero_witness :
    get_gvi_score (some [pixelGray]) = Except.ok 0 :=
  uniform_image_scores_zero pixelGray [pixelGray] (by simp)
    (fun q hq => by rwa [List.mem_singleton] at hq)

/-- C5: an input the decoder cannot parse makes the calculator fail with
the decode error; no score is returned. -/
theorem undecodable_input_fails :
    get_gvi_score none = Except.error GviError.decodeError ∧
    ∀ q : ℚ, get_gvi_score none ≠ Except.ok q :=
  ⟨rfl, fun _ h => by simp [get_gvi_score] at h⟩

/-- C6: a nonempty all-black image scores exactly `0`. -/
theorem all_black_scores_zero (im : List Pixel) (hne : im ≠ [])
    (h : ∀ q ∈ im, q = pixelBlack) :
    get_gvi_score (some im) = Except.ok 0 := by
  simp only [get_gvi_score]
  rw [gviScore_const pixelBlack im hne h]

/-- C6 witness: the two-pixel all-black image scores `0`. -/
theorem all_black_scores_zero_witness :
    get_gvi_score (some [pixelBlack, pixelBlack]) = Except.ok 0 :=
  all_black_scores_zero [pixelBlack, pixelBlack] (by simp)
    (by intro q hq
        rcases List.mem_cons.mp hq with h | h
        · exact h
        · rwa [List.mem_singleton] at h)

/-- C9: the calculator is a pure function of the decoded image data: any
two invocations whose decoders deliver the same decode result — in
particular two invocations on the same image — return the identical
value, and the model has no other state for an invocation to affect. -/
theorem gvi_score_is_pure (fs fs2 : List Char → Option (List Pixel))
    (p q : List Char) (h : fs p = fs2 q) :
    get_gvi_score_at fs p = get_gvi_score_at fs2 q := by
  rw [get_gvi_score_at, get_gvi_score_at, h]

/-- C9 witness: two invocations on the same decoded image agree. -/
theorem gvi_score_is_pure_witness :
    get_gvi_score_at (fun _ => some [pixelBlack]) ['a'] =
      get_gvi_score_at (fun _ => some [pixelBlack]) ['b'] :=
  gvi_score_is_pure (fun _ => some [pixelBlack]) (fun _ => some [pixelBlack])
    ['a'] ['b'] rfl

end StreetGreen

namespace StreetGreen

/-- Helper: `imageId` drops exactly the trailing `".jpeg"` from a filename
that ends in it. -/
theorem imageId_append_jpeg (t : List Char) : imageId (t ++ jpeg) = t := by
  rw [imageId]
  have hlen : (t ++ jpeg).length - 5 = t.length := by
    simp [jpeg]
  rw [hlen]
  exact List.take_left t jpeg

/-- Helper: stripping the extension from a filename that ends in `".jpeg"`
leaves everything before that suffix. -/
theorem stripExtension_append_jpeg (t : List Char) :
    stripExtension (t ++ jpeg) = t := by
  have hdot : '.' ∈ t ++ jpeg :=
    List.mem_append.mpr (Or.inr (by simp [jpeg]))
  rw [stripExtension, if_pos hdot]
  have hrev : (t ++ jpeg).reverse = 'g' :: 'e' :: 'p' :: 'j' :: '.' :: t.reverse := by
    simp [jpeg, List.reverse_append]
  rw [hrev]
  simp [List.dropWhile]

/-- C3 counterexample: for the filename `a.png` the join identifier the
code derives (`str[:-5]`, the empty string) differs from the filename
with its extension stripped (`a`). -/
theorem join_id_strips_extension_cex :
    imageId ['a', '.', 'p', 'n', 'g'] ≠ stripExtension ['a', '.', 'p', 'n', 'g'] := by
  decide

/-- C3 (amended): the join identifier equals the filename with the last
five characters dropped; it coincides with the extension-stripped name
exactly for the five-character extension `".jpeg"` the pipeline's export
produces — for a filename `t ++ ".jpeg"` the identifier is `t`, which is
the extension-stripped name. -/
theorem join_id_drops_five (s t : List Char) (h : s = t ++ jpeg) :
    imageId s = t ∧ imageId s = stripExtension s := by
  subst h
  exact ⟨imageId_append_jpeg t, by
    rw [imageId_append_jpeg t, stripExtension_append_jpeg t]⟩

/-- C3 witness: the amended claim at the filename `a.jpeg`. -/
theorem join_id_drops_five_witness :
    imageId (['a'] ++ jpeg) = ['a'] ∧
    imageId (['a'] ++ jpeg) = stripExtension (['a'] ++ jpeg) :=
  join_id_drops_five (['a'] ++ jpeg) ['a'] rfl

/-- C8: when the image directory does not exist, `main` fails with the
configuration-level directory error; the result is independent of the
image decoder, so no per-image GVI computation can influence the run. -/
theorem missing_directory_aborts (env : Env)
    (h : env.imageDirectoryExists = false) :
    main env = Except.error MainError.imageDirectoryNotFound ∧
    ∀ g : List Char → Option (List Pixel),
      main { env with fs := g } = Except.error MainError.imageDirectoryNotFound := by
  refine ⟨by simp [main, h], fun g => by simp [main, h]⟩

/-- C8 witness: the concrete environment with the directory missing. -/
theorem missing_directory_aborts_witness :
    main envNoDir = Except.error MainError.imageDirectoryNotFound :=
  (missing_directory_aborts envNoDir rfl).1

end StreetGreen

namespace StreetGreen

/-- C7: left-join semantics of the score merge: every point row of the
input dataset appears in the output; a point row whose identifier matches
no score row appears paired with no score; and a score row whose
identifier matches no point row appears nowhere in the output. -/
theorem left_join_semantics (points : List PointRow) (scores : List ScoreRow) :
    (∀ p ∈ points, ∃ m, (p, m) ∈ leftMerge points scores) ∧
    (∀ p ∈ points, (∀ s ∈ scores, scoreImageId s ≠ p.image_id) →
      (p, none) ∈ leftMerge points scores) ∧
    (∀ s ∈ scores, (∀ p ∈ points, p.image_id ≠ scoreImageId s) →
      ∀ p m, (p, m) ∈ leftMerge points scores → m ≠ some s) := by
  refine ⟨?_, ?_, ?_⟩
  · intro p hp
    by_cases he : (scores.filter (fun s => decide (scoreImageId s = p.image_id))).isEmpty
    · refine ⟨none, ?_⟩
      simp only [leftMerge, List.mem_flatMap]
      refine ⟨p, hp, ?_⟩
      rw [if_pos he]
      exact List.mem_singleton.mpr rfl
    · obtain ⟨s0, hs0⟩ : ∃ s0,
          s0 ∈ scores.filter (fun s => decide (scoreImageId s = p.image_id)) := by
        cases hfe : scores.filter (fun s => decide (scoreImageId s = p.image_id)) with
        | nil => rw [hfe] at he; simp at he
        | cons a l => exact ⟨a, hfe ▸ List.mem_cons_self a l⟩
      refine ⟨some s0, ?_⟩
      simp only [leftMerge, List.mem_flatMap]
      refine ⟨p, hp, ?_⟩
      rw [if_neg he]
      exact List.mem_map.mpr ⟨s0, hs0, rfl⟩
  · intro p hp hnone
    have he : (scores.filter (fun s => decide (scoreImageId s = p.image_id))).isEmpty := by
      rw [List.isEmpty_iff, List.filter_eq_nil_iff]
      intro s hs
      simp only [decide_eq_true_eq]
      exact hnone s hs
    simp only [leftMerge, List.mem_flatMap]
    refine ⟨p, hp, ?_⟩
    rw [if_pos he]
    exact List.mem_singleton.mpr rfl
  · intro s hs hmatch p m hmem
    simp only [leftMerge, List.mem_flatMap] at hmem
    obtain ⟨p2, hp2, hin⟩ := hmem
    by_cases he : (scores.filter (fun u => decide (scoreImageId u = p2.image_id))).isEmpty
    · rw [if_pos he] at hin
      rw [List.mem_singleton] at hin
      intro hsome
      rw [hsome] at hin
      exact Option.noConfusion (congrArg Prod.snd hin)
    · rw [if_neg he] at hin
      obtain ⟨u, hu, hup⟩ := List.mem_map.mp hin
      obtain ⟨hus, hukey⟩ := List.mem_filter.mp hu
      intro hsome
      have hpp : p2 = p := congrArg Prod.fst hup
      have hmm : some u = m := congrArg Prod.snd hup
      rw [hsome] at hmm
      have hueq : u = s := Option.some.inj hmm
      have hkey : scoreImageId u = p2.image_id := of_decide_eq_true hukey
      exact hmatch p2 hp2 (by rw [← hkey, hueq])

/-- C7 witness: with one point `a` and one score row for `b.jpeg`, the
point appears in the output unscored, and the unmatched score row appears
nowhere. -/
theorem left_join_semantics_witness :
    (pointA, (none : Option ScoreRow)) ∈ leftMerge [pointA] [scoreB] :=
  (left_join_semantics [pointA] [scoreB]).2.1 pointA (List.mem_singleton.mpr rfl)
    (fun s hs => by
      rw [List.mem_singleton] at hs
      subst hs
      decide)

end StreetGreen

namespace StreetGreen

/-- Helper: a prefix of `a ++ t :: b` avoiding the separator character `t`
is a prefix of `a`. -/
theorem avoid_sep_pre (t : Char) (l : List Char) :
    ∀ a b : List Char, t ∉ l → l <+: a ++ t :: b → l <+: a := by
  induction l with
  | nil => intro a b _ _; exact List.nil_prefix
  | cons c l ih =>
    intro a b hmem hpre
    cases a with
    | nil =>
      rw [List.nil_append, List.cons_prefix_cons] at hpre
      have : t ∈ c :: l := by rw [← hpre.1]; exact List.mem_cons_self c l
      exact absurd this hmem
    | cons x a =>
      rw [List.cons_append, List.cons_prefix_cons] at hpre
      obtain ⟨hcx, h2⟩ := hpre
      have hmem2 : t ∉ l := fun hm => hmem (List.mem_cons_of_mem c hm)
      exact List.cons_prefix_cons.mpr ⟨hcx, ih a b hmem2 h2⟩

/-- Helper: an infix of `a ++ t :: b` avoiding the separator character `t`
is an infix of `a` or an infix of `b` — an occurrence cannot straddle the
separator. -/
theorem avoid_sep_inf (t : Char) (l : List Char) (hmem : t ∉ l) :
    ∀ a b : List Char, l <:+: a ++ t :: b → l <:+: a ∨ l <:+: b := by
  intro a
  induction a with
  | nil =>
    intro b h
    rw [List.nil_append, List.infix_cons_iff] at h
    rcases h with h | h
    · cases l with
      | nil => exact Or.inl List.nil_infix
      | cons c l2 =>
        rw [List.cons_prefix_cons] at h
        have : t ∈ c :: l2 := by rw [← h.1]; exact List.mem_cons_self c l2
        exact absurd this hmem
    · exact Or.inr h
  | cons x a ih =>
    intro b h
    rw [List.cons_append, List.infix_cons_iff] at h
    rcases h with h | h
    · cases l with
      | nil => exact Or.inl List.nil_infix
      | cons c l2 =>
        rw [List.cons_prefix_cons] at h
        obtain ⟨hcx, h2⟩ := h
        have hm2 : t ∉ l2 := fun hm => hmem (List.mem_cons_of_mem c hm)
        exact Or.inl (List.cons_prefix_cons.mpr ⟨hcx, avoid_sep_pre t l2 a b hm2 h2⟩).isInfix
    · rcases ih b h with h2 | h2
      · exact Or.inl (List.infix_cons_iff.mpr (Or.inr h2))
      · exact Or.inr h2

/-- Helper: `".jpeg"` occurs in the tab-join of a listing exactly when it
occurs inside one of the listed names: the pattern contains no tab, so an
occurrence cannot straddle a separator. -/
theorem jpeg_in_tabJoin : ∀ listing : List (List Char),
    jpeg <:+: tabJoin listing ↔ ∃ f ∈ listing, jpeg <:+: f
  | [] => by
    simp only [tabJoin]
    constructor
    · intro h
      exact absurd (List.infix_nil.mp h) (by simp [jpeg])
    · rintro ⟨f, hf, _⟩
      exact absurd hf (List.not_mem_nil f)
  | [f] => by
    simp only [tabJoin]
    constructor
    · intro h
      exact ⟨f, List.mem_singleton.mpr rfl, h⟩
    · rintro ⟨g, hg, h⟩
      rw [List.mem_singleton] at hg
      rwa [hg] at h
  | f :: g :: rest => by
    have ih := jpeg_in_tabJoin (g :: rest)
    simp only [tabJoin]
    constructor
    · intro h
      rcases avoid_sep_inf '\t' jpeg (by decide) f (tabJoin (g :: rest)) h with h2 | h2
      · exact ⟨f, List.mem_cons_self f (g :: rest), h2⟩
      · obtain ⟨f2, hf2, hinf⟩ := ih.mp h2
        exact ⟨f2, List.mem_cons_of_mem f hf2, hinf⟩
    · rintro ⟨f2, hf2, hinf⟩
      rcases List.mem_cons.mp hf2 with h2 | h2
      · rw [h2] at hinf
        exact hinf.trans (List.prefix_append f ('\t' :: tabJoin (g :: rest))).isInfix
      · have h3 : jpeg <:+: tabJoin (g :: rest) := ih.mpr ⟨f2, h2, hinf⟩
        exact h3.trans ((List.suffix_cons '\t' (tabJoin (g :: rest))).trans
          (List.suffix_append f ('\t' :: tabJoin (g :: rest)))).isInfix

/-- Helper: the only failures `computeScores` can produce are per-image
`gviFailure` errors. -/
theorem computeScores_error (fs : List Char → Option (List Pixel)) :
    ∀ (l : List (List Char)) (e : MainError),
      computeScores fs l = Except.error e →
      ∃ f ge, e = MainError.gviFailure f ge := by
  intro l
  induction l with
  | nil =>
    intro e h
    exact absurd h (by simp [computeScores])
  | cons f rest ih =>
    intro e h
    rw [computeScores] at h
    cases hg : get_gvi_score (fs f) with
    | error ge =>
      rw [hg] at h
      simp only [] at h
      exact ⟨f, ge, (Except.error.inj h).symm⟩
    | ok s =>
      rw [hg] at h
      cases hr : computeScores fs rest with
      | error e2 =>
        rw [hr] at h
        simp only [] at h
        have he2 : e2 = e := Except.error.inj h
        exact he2 ▸ ih e2 hr
      | ok rows =>
        rw [hr] at h
        exact absurd h (by simp)

/-- Helper: on success, `computeScores` produces one score row per
directory entry, in listing order: the filename column is the listing. -/
theorem computeScores_ok_filenames (fs : List Char → Option (List Pixel)) :
    ∀ (l : List (List Char)) (rows : List ScoreRow),
      computeScores fs l = Except.ok rows →
      rows.map ScoreRow.filename = l := by
  intro l
  induction l with
  | nil =>
    intro rows h
    rw [computeScores] at h
    rw [← Except.ok.inj h]
    rfl
  | cons f rest ih =>
    intro rows h
    rw [computeScores] at h
    cases hg : get_gvi_score (fs f) with
    | error ge =>
      rw [hg] at h
      exact absurd h (by simp)
    | ok s =>
      rw [hg] at h
      cases hr : computeScores fs rest with
      | error e2 =>
        rw [hr] at h
        exact absurd h (by simp)
      | ok rows2 =>
        rw [hr] at h
        have hrows : ({ filename := f, gvi_score := s } : ScoreRow) :: rows2 = rows :=
          Except.ok.inj h
        rw [← hrows, List.map_cons, ih rows2 hr]

/-- Helper: with the first two checks passing, `main` reduces to the
point-geometry check and the scoring loop. -/
theorem main_of_checks (env : Env) (hdir : env.imageDirectoryExists = true)
    (hj : jpeg <:+: tabJoin env.listing)
    (hp : GeomType.point ∈ env.interimGeomTypes) :
    main env = (match computeScores env.fs env.listing with
      | Except.error e => Except.error e
      | Except.ok rows => Except.ok (leftMerge env.points rows)) := by
  simp [main, hdir, hj, hp]

/-- Helper: with the directory present and no `".jpeg"` in the joined
listing, `main` fails with the missing-contents error. -/
theorem main_no_jpeg (env : Env) (hdir : env.imageDirectoryExists = true)
    (hnj : ¬ jpeg <:+: tabJoin env.listing) :
    main env = Except.error MainError.missingJpegContents := by
  simp [main, hdir, hnj]

/-- Helper: with the first two checks passing and no point geometry,
`main` fails with the point-data error. -/
theorem main_no_point (env : Env) (hdir : env.imageDirectoryExists = true)
    (hj : jpeg <:+: tabJoin env.listing)
    (hnp : GeomType.point ∉ env.interimGeomTypes) :
    main env = Except.error MainError.noPointData := by
  simp [main, hdir, hj, hnp]

/-- C10: with the directory present, the contents check makes `main` fail
with its missing-contents error exactly when no filename of the listing
contains `".jpeg"` as a substring (a single such filename suffices to
pass); and when it passes, the scoring loop passes every directory entry
to the calculator — a successful run has one score row per entry,
whatever its extension. -/
theorem jpeg_check_iff_all_scored (env : Env)
    (hdir : env.imageDirectoryExists = true) :
    (main env = Except.error MainError.missingJpegContents ↔
      ∀ f ∈ env.listing, ¬ jpeg <:+: f) ∧
    (∀ rows, computeScores env.fs env.listing = Except.ok rows →
      rows.map ScoreRow.filename = env.listing) := by
  constructor
  · by_cases hj : jpeg <:+: tabJoin env.listing
    · constructor
      · intro hmain
        exfalso
        by_cases hp : GeomType.point ∈ env.interimGeomTypes
        · rw [main_of_checks env hdir hj hp] at hmain
          cases hcs : computeScores env.fs env.listing with
          | error e =>
            rw [hcs] at hmain
            simp only [] at hmain
            obtain ⟨f, ge, hfe⟩ := computeScores_error env.fs env.listing e hcs
            rw [hfe] at hmain
            exact MainError.noConfusion (Except.error.inj hmain)
          | ok rows =>
            rw [hcs] at hmain
            exact Except.noConfusion hmain
        · rw [main_no_point env hdir hj hp] at hmain
          exact MainError.noConfusion (Except.error.inj hmain)
      · intro hall
        exfalso
        obtain ⟨f, hf, hinf⟩ := (jpeg_in_tabJoin env.listing).mp hj
        exact hall f hf hinf
    · constructor
      · intro _ f hf hinf
        exact hj ((jpeg_in_tabJoin env.listing).mpr ⟨f, hf, hinf⟩)
      · intro _
        exact main_no_jpeg env hdir hj
  · exact fun rows h => computeScores_ok_filenames env.fs env.listing rows h

/-- C10 witness: the concrete healthy environment, whose listing contains
`a.jpeg`, does not fail the contents check. -/
theorem jpeg_check_iff_all_scored_witness :
    main envW ≠ Except.error MainError.missingJpegContents := by
  intro hc
  have h := (jpeg_check_iff_all_scored envW rfl).1.mp hc
  exact h fnameA (List.mem_singleton.mpr rfl) (by decide)

end StreetGreen
